import Mathlib

/-!
Verification of the GpArvi chatbot retrieval core (`api/chat.js` and its
revision variants) against its natural-language specification.

The JavaScript source is shallowly embedded: dynamically-typed JSON fields
become the `JField` type, JavaScript exceptions (`TypeError` on property
access of `null`/`undefined` or on calling `.toLowerCase()` of a
non-string) become `Except`/`Option` results, and the string operations
(`trim`, `toLowerCase`, `includes`, the regex normalization of the
hardened variant) are modelled on `List Char`. The case mapping covers
the ASCII range and the Unicode characters whose JavaScript lowercase
mapping produces an ASCII letter (KELVIN SIGN, LATIN CAPITAL LETTER I
WITH DOT ABOVE); all other characters are kept, as their real mappings
never reach the ASCII letters and digits these observations test.
-/

/-- A JavaScript value sitting in an object field position.
`absent` is `undefined` (missing property), `null` is JSON `null`,
`str` is a string, and `other` stands for any remaining *truthy*
non-string value (a number, an object, ...): the source only ever
branches on `?? `/truthiness/`typeof x === "string"`, so this is the
full distinction it can observe before attempting a string method. -/
inductive JField where
  | absent
  | null
  | str (s : String)
  | other
  deriving DecidableEq

/-- A section object inside a page's `sections` array (fields optional). -/
structure Sectn where
  heading : JField
  content : JField
  deriving DecidableEq

/-- One element of a `sections` array: either an object (any non-null
value: property access on it yields `absent` fields at worst) or
`null`/`undefined`, whose property access throws a `TypeError`. -/
inductive SectionVal where
  | obj (s : Sectn)
  | nullV
  deriving DecidableEq

/-- The `sections` property of a page: either an actual array
(`Array.isArray` is true) or anything else (absent, null, non-array). -/
inductive SectionsField where
  | arr (ss : List SectionVal)
  | nonArray
  deriving DecidableEq

/-- A raw page object of `websiteData.json` (all fields optional). -/
structure RawPage where
  title : JField
  url : JField
  content : JField
  sections : SectionsField
  deriving DecidableEq

/-- One element of the top-level page collection: an object, or
`null`/`undefined` whose property access throws a `TypeError`. -/
inductive PageVal where
  | obj (p : RawPage)
  | nullV
  deriving DecidableEq

/-- The value handed to `extractContentRecords`: an iterable array of
pages, or a non-iterable value on which `for ... of` throws. -/
inductive JsInput where
  | arr (ps : List PageVal)
  | nonIterable
  deriving DecidableEq

/-- A flattened Content Record as pushed by `extractContentRecords`.
`content` is always a string (guarded by `typeof === "string"`); the
other three fields carry whatever `page.x ?? ""` produced. -/
structure ContentRecord where
  title : JField
  url : JField
  heading : JField
  content : String
  deriving DecidableEq

/-- JavaScript whitespace as far as `String.prototype.trim` and this
data set are concerned (space, tab, newline, carriage return). -/
def isWS (c : Char) : Bool :=
  c == ' ' || c == '\t' || c == '\n' || c == '\r'

/-- Left trim on character lists. -/
def ltrimWS (l : List Char) : List Char := l.dropWhile isWS

/-- Right trim on character lists. -/
def rtrimWS (l : List Char) : List Char := (l.reverse.dropWhile isWS).reverse

/-- Both-ends trim on character lists. -/
def trimChars (l : List Char) : List Char := rtrimWS (ltrimWS l)

/-- Model of JavaScript `String.prototype.trim`. -/
def jsTrim (s : String) : String := ⟨trimChars s.data⟩

/-- Lower-casing of one character under JavaScript
`String.prototype.toLowerCase`, restricted to the mappings that can
reach an ASCII letter or digit: the ASCII range `A`-`Z`, KELVIN SIGN
U+212A (which lowercases to `k`), and LATIN CAPITAL LETTER I WITH DOT
ABOVE U+0130 (which lowercases to `i` followed by COMBINING DOT ABOVE
U+0307). Every other character is kept: its real lowercase mapping
never produces an ASCII letter or digit, which is all the matcher and
normalization observations below inspect. -/
def lowerCharL (c : Char) : List Char :=
  if decide ('A' ≤ c) && decide (c ≤ 'Z') then [Char.ofNat (c.toNat + 32)]
  else if c = 'K' then ['k']
  else if c = 'İ' then ['i', '̇']
  else [c]

/-- Model of JavaScript `String.prototype.toLowerCase`. -/
def jsToLower (s : String) : String := ⟨s.data.flatMap lowerCharL⟩

/-- Model of `a ?? b` for a field read with default `""`:
`page.title ?? ""` yields `""` exactly for `undefined`/`null`. -/
def jsNullish : JField → JField
  | .absent => .str ""
  | .null => .str ""
  | f => f

/-- JavaScript truthiness of a field value (a string is truthy iff
non-empty; `other` values are truthy by the `JField` convention). -/
def JField.truthy : JField → Bool
  | .absent => false
  | .null => false
  | .str s => !(s == "")
  | .other => true

/-- String a field renders as inside a template literal. Only the
`str` case is ever exercised by the theorems below; the stringification
of the remaining cases follows JavaScript (`other` is unspecified). -/
def fieldStr : JField → String
  | .str s => s
  | .null => "null"
  | .absent => "undefined"
  | .other => "[object Object]"

/-- The string content of a field, `""` for anything non-string (used
to state spec-side matcher properties on string-fielded records). -/
def strOf : JField → String
  | .str s => s
  | _ => ""

/-- Processing of one element of a `sections` array inside
`extractContentRecords`: a `null` element throws on `section.content`;
otherwise a record is pushed iff the section's `content` is a string
that is non-empty after trimming. -/
def extractSection (title url : JField) : SectionVal → Except String (Option ContentRecord)
  | .nullV => .error "TypeError: cannot read properties of null"
  | .obj s =>
    match s.content with
    | .str c =>
      if jsTrim c = "" then .ok none
      else .ok (some ⟨title, url, jsNullish s.heading, jsTrim c⟩)
    | _ => .ok none

/-- The inner `for (const section of page.sections)` loop: pushes
records in section order, propagating the first thrown `TypeError`. -/
def extractSections (title url : JField) : List SectionVal → Except String (List ContentRecord)
  | [] => .ok []
  | sv :: svs =>
    match extractSection title url sv with
    | .error e => .error e
    | .ok r? =>
      match extractSections title url svs with
      | .error e => .error e
      | .ok rest =>
        match r? with
        | some r => .ok (r :: rest)
        | none => .ok rest

/-- The body of the outer loop of `extractContentRecords` for one page:
`null` pages throw on `page.title`; an array-valued `sections` field
takes the sectioned branch (even when the array is empty); otherwise
the page's own `content` may produce a single heading-less record. -/
def extractPage : PageVal → Except String (List ContentRecord)
  | .nullV => .error "TypeError: cannot read properties of null"
  | .obj p =>
    let title := jsNullish p.title
    let url := jsNullish p.url
    match p.sections with
    | .arr ss => extractSections title url ss
    | .nonArray =>
      match p.content with
      | .str c =>
        if jsTrim c = "" then .ok []
        else .ok [⟨title, url, .str "", jsTrim c⟩]
      | _ => .ok []

/-- The outer `for (const page of websiteData)` loop. -/
def extractPages : List PageVal → Except String (List ContentRecord)
  | [] => .ok []
  | pv :: pvs =>
    match extractPage pv with
    | .error e => .error e
    | .ok rs =>
      match extractPages pvs with
      | .error e => .error e
      | .ok rest => .ok (rs ++ rest)

/-- Model of `extractContentRecords` (`api/chat.js`): flattens the raw
page collection into Content Records, or throws (as an `Except.error`)
when the input is not iterable or a traversed element is `null`. -/
def extractContentRecords : JsInput → Except String (List ContentRecord)
  | .nonIterable => .error "TypeError: websiteData is not iterable"
  | .arr ps => extractPages ps

/-- Decidable equality of `Except` results, for evaluating the
extraction on concrete inputs. -/
instance {ε α : Type} [DecidableEq ε] [DecidableEq α] : DecidableEq (Except ε α) := fun x y =>
  match x, y with
  | .ok a, .ok b => if h : a = b then .isTrue (by simp [h]) else .isFalse (by simp [h])
  | .error a, .error b => if h : a = b then .isTrue (by simp [h]) else .isFalse (by simp [h])
  | .ok _, .error _ => .isFalse (by simp)
  | .error _, .ok _ => .isFalse (by simp)

/-- `needle` occurs as a contiguous substring of `hay`
(model of JavaScript `hay.includes(needle)`). -/
def strIncludes (hay needle : String) : Bool :=
  decide (needle.data <:+: hay.data)

/-- Model of one `(item.f && item.f.toLowerCase().includes(q))` clause of
`searchRelevantChunks` for a `JField`-valued property: `none` models the
`TypeError` thrown by `.toLowerCase()` on a truthy non-string value. -/
def fieldMatch : JField → String → Option Bool
  | .str s, q => some (!(s == "") && strIncludes (jsToLower s) q)
  | .other, _ => none
  | _, _ => some false

/-- The filter predicate of `searchRelevantChunks` on one record, for
the already-lowercased question `q`; clauses are evaluated in source
order (content, heading, title) with `||` short-circuiting. -/
def recordMatch (q : String) (r : ContentRecord) : Option Bool :=
  if !(r.content == "") && strIncludes (jsToLower r.content) q then some true
  else
    match fieldMatch r.heading q with
    | none => none
    | some true => some true
    | some false => fieldMatch r.title q

/-- `Array.prototype.filter` with a callback that may throw: the first
thrown exception aborts the whole call. -/
def filterOpt {α : Type} (p : α → Option Bool) : List α → Option (List α)
  | [] => some []
  | a :: l =>
    match p a with
    | none => none
    | some b =>
      match filterOpt p l with
      | none => none
      | some rest => some (if b then a :: rest else rest)

/-- Model of `searchRelevantChunks` (`api/chat.js`): returns `[]` for a
falsy (empty) question, otherwise filters the records by
case-insensitive substring match of the question against content,
heading, title. `none` models an escaped `TypeError`. -/
def searchRelevantChunks (records : List ContentRecord) (question : String) :
    Option (List ContentRecord) :=
  if question = "" then some []
  else filterOpt (recordMatch (jsToLower question)) records

/-- The per-record block of the context composer:
`[title-line, heading-line, content].filter(Boolean).join("\n")`. -/
def composeBlock (c : ContentRecord) : String :=
  String.intercalate "\n"
    (([if c.title.truthy then "Title: " ++ fieldStr c.title else "",
       if c.heading.truthy then "Heading: " ++ fieldStr c.heading else "",
       c.content]).filter (fun s => !(s == "")))

/-- The joined rendering of the first `limit` chunks:
`chunks.slice(0, limit).map(block).join("\n\n")`. -/
def joinedContext (chunks : List ContentRecord) (limit : Nat) : String :=
  String.intercalate "\n\n" ((chunks.take limit).map composeBlock)

/-- The composed context as built inline in the handler: the joined
rendering, with the sentinel substituted via `|| "No relevant info
found."` exactly when the joined rendering is the empty (falsy) string. -/
def composeContext (chunks : List ContentRecord) (limit : Nat) : String :=
  if joinedContext chunks limit = "" then "No relevant info found."
  else joinedContext chunks limit

/-- An inbound HTTP request as far as the handler inspects it:
the method string and the optional parsed JSON body. -/
structure BodyObj where
  question : JField
  deriving DecidableEq

/-- A request; `body = none` models an absent (`undefined`) `req.body`. -/
structure HttpReq where
  method : String
  body : Option BodyObj
  deriving DecidableEq

/-- Observable outcome of a handler run, up to the external completion
API: an early response with a status code and an `{error: ...}` payload
flag, the invocation of the external API (with the composed context and
the question value), or a synchronous exception escaping the handler. -/
inductive HOutcome where
  | response (status : Nat) (errorPayload : Bool)
  | apiCall (context : String) (question : JField)
  | thrown
  deriving DecidableEq

/-- The `question` field the handler destructures out of
`req.body ?? {}`. -/
def reqQuestion (req : HttpReq) : JField :=
  match req.body with
  | none => .absent
  | some b => b.question

/-- The validation `!question || typeof question !== "string" ||
!question.trim()` of the main handler: `true` means rejected with 400. -/
def questionBad : JField → Bool
  | .str s => jsTrim s == ""
  | _ => true

/-- Model of the default-export `handler` of `api/chat.js`, up to the
external completion API call, parameterised by the loaded data file. -/
def handler (data : JsInput) (req : HttpReq) : HOutcome :=
  if req.method ≠ "POST" then .response 405 true
  else
    match reqQuestion req with
    | .str s =>
      if jsTrim s = "" then .response 400 true
      else
        match extractContentRecords data with
        | .error _ => .response 500 true
        | .ok records =>
          match searchRelevantChunks records s with
          | none => .response 500 true
          | some chunks => .apiCall (composeContext chunks 8) (.str s)
    | _ => .response 400 true

/-- A raw document of the flat data shape the `part_000` variant
filters directly (fields `content` and `section`). -/
structure RawDoc where
  content : JField
  sectionF : JField
  deriving DecidableEq

/-- One `(d.f && d.f.toLowerCase().includes(question.toLowerCase()))`
clause of the `part_000` filter: `question.toLowerCase()` is evaluated
(and throws for a non-string question) only when `d.f` is a truthy
string; a truthy non-string `d.f` throws on its own `toLowerCase`. -/
def v0FieldClause (qf : JField) (f : JField) : Option Bool :=
  match f with
  | .str c =>
    if c = "" then some false
    else
      match qf with
      | .str q => some (strIncludes (jsToLower c) (jsToLower q))
      | _ => none
  | .other => none
  | _ => some false

/-- The `part_000` filter predicate on one document:
content clause `||` section clause, short-circuiting. -/
def v0Match (qf : JField) (d : RawDoc) : Option Bool :=
  match v0FieldClause qf d.content with
  | none => none
  | some true => some true
  | some false => v0FieldClause qf d.sectionF

/-- `c.content || ''` as used when the `part_000` variant joins the
matched documents into a context string. -/
def v0ContentStr : JField → String
  | .str s => s
  | .other => "[object Object]"
  | _ => ""

/-- Model of the `part_000` handler variant, up to the external API
call: note that its only input validation is `if (!question)`. -/
def handlerV0 (docs : List RawDoc) (req : HttpReq) : HOutcome :=
  if req.method ≠ "POST" then .response 405 true
  else
    match req.body with
    | none => .thrown
    | some b =>
      if b.question.truthy = false then .response 400 true
      else
        match filterOpt (v0Match b.question) docs with
        | none => .thrown
        | some ms =>
          let ctx := String.intercalate "\n" (ms.map (fun d => v0ContentStr d.content))
          .apiCall (if ctx = "" then "No relevant info found." else ctx) b.question

/-- Characters kept verbatim by the hardened normalization's regex
character class `[a-z0-9 ]` (applied after lower-casing). -/
def isKeep (c : Char) : Bool :=
  (decide ('a' ≤ c) && decide (c ≤ 'z')) || (decide ('0' ≤ c) && decide (c ≤ '9')) ||
    (c == ' ')

/-- One character of the `replace(/[^a-z0-9 ]+/g, " ")` step: a kept
character survives, everything else becomes a space (replacing each
character of a run by a space is equivalent to replacing the run by one
space, because runs of spaces are collapsed immediately afterwards). -/
def normChar (c : Char) : Char := if isKeep c then c else ' '

/-- The `replace(/\s+/g, " ")` step: collapse runs of spaces; the flag
records whether the previous emitted character was a space. -/
def collapseAux : List Char → Bool → List Char
  | [], _ => []
  | c :: cs, prevSpace =>
    if c == ' ' then
      if prevSpace then collapseAux cs true else ' ' :: collapseAux cs true
    else c :: collapseAux cs false

/-- The `prepare` normalization of the hardened matcher variant
(`part_003`): lowercase, replace non-alphanumerics by spaces, collapse
whitespace runs, trim. -/
def prepareStr (s : String) : String :=
  ⟨trimChars (collapseAux ((jsToLower s).data.map normChar) false)⟩

/-- `prepare(f)` for a `JField`-valued property in the hardened variant:
`(f || "")` turns falsy values into `""`; a truthy non-string throws. -/
def prepareF : JField → Option String
  | .str s => some (prepareStr s)
  | .other => none
  | _ => some (prepareStr "")

/-- The hardened filter predicate on one record for the normalized
question `q` (clauses in source order, `||` short-circuiting). -/
def recordMatchH (q : String) (r : ContentRecord) : Option Bool :=
  if strIncludes (prepareStr r.content) q then some true
  else
    match prepareF r.heading with
    | none => none
    | some h =>
      if strIncludes h q then some true
      else
        match prepareF r.title with
        | none => none
        | some t => some (strIncludes t q)

/-- Model of the hardened `searchRelevantChunks` of `part_003`:
normalizes the question with `prepare` and filters by substring match
of the normalized question against the normalized fields. -/
def searchRelevantChunksH (records : List ContentRecord) (question : String) :
    Option (List ContentRecord) :=
  if question = "" then some []
  else filterOpt (recordMatchH (prepareStr question)) records

/-- Spec-side matcher predicate, written from the specification's words:
a record matches iff the lowercased question is a literal substring of
the lowercased `content`, or of the lowercased `heading`, or of the
lowercased `title` (fields read as the strings they hold). -/
def specMatches (question : String) (r : ContentRecord) : Bool :=
  strIncludes (jsToLower r.content) (jsToLower question) ||
  strIncludes (jsToLower (strOf r.heading)) (jsToLower question) ||
  strIncludes (jsToLower (strOf r.title)) (jsToLower question)

/-- Spec-side block rendering, written from the specification's words:
a `Title:` line if the title is non-empty, then a `Heading:` line if the
heading is non-empty, then the content, present parts newline-joined
and empty parts omitted entirely. -/
def specBlock (t h ct : String) : String :=
  String.intercalate "\n"
    ((if t = "" then [] else ["Title: " ++ t]) ++
     (if h = "" then [] else ["Heading: " ++ h]) ++
     (if ct = "" then [] else [ct]))

/-- A section/page `content` field that must not produce a record:
missing, `null`, non-string, or empty after trimming. -/
def badContent : JField → Bool
  | .str c => jsTrim c == ""
  | _ => true

/-- A traversed section element that does not throw. -/
def SectionVal.good : SectionVal → Bool
  | .obj _ => true
  | .nullV => false

/-- A traversed page element that does not throw anywhere. -/
def PageVal.good : PageVal → Bool
  | .nullV => false
  | .obj p =>
    match p.sections with
    | .arr ss => ss.all SectionVal.good
    | .nonArray => true

/-- Inputs on which extraction completes without throwing. -/
def goodInput : JsInput → Bool
  | .nonIterable => false
  | .arr ps => ps.all PageVal.good

/-- `Except` success as a boolean observation. -/
def exceptOk {ε α : Type} : Except ε α → Bool
  | .ok _ => true
  | .error _ => false

/-- JField-by-field structural equality of two Content Records. -/
def recordEqb (a b : ContentRecord) : Bool :=
  a.title == b.title && a.url == b.url && a.heading == b.heading && a.content == b.content

/-- Order-and-value structural equality of two record sequences. -/
def recordsEqb : List ContentRecord → List ContentRecord → Bool
  | [], [] => true
  | a :: as_, b :: bs => recordEqb a b && recordsEqb as_ bs
  | _, _ => false

/-- A section element that makes `extractContentRecords` push a record:
an object whose `content` is a string with non-whitespace characters. -/
def sectionEmits : SectionVal → Bool
  | .obj s => !badContent s.content
  | .nullV => false

/-- An ASCII letter or digit. -/
def isAsciiAlnum (c : Char) : Bool :=
  (decide ('a' ≤ c) && decide (c ≤ 'z')) || (decide ('A' ≤ c) && decide (c ≤ 'Z')) ||
    (decide ('0' ≤ c) && decide (c ≤ '9'))

/-- Content of the i-th of twenty distinct matching records used to
exercise the composer's truncation ("c1x" ... "c20x"). -/
def recContent (i : Nat) : String := "c" ++ toString (i + 1) ++ "x"

/-- Twenty matching records with pairwise distinct contents. -/
def recs20 : List ContentRecord :=
  (List.range 20).map (fun i => ⟨.str "", .str "", .str "", recContent i⟩)

/-- Dropping a satisfied run twice is the same as dropping it once. -/
theorem dropWhile_self (p : Char → Bool) (l : List Char) :
    (l.dropWhile p).dropWhile p = l.dropWhile p := by
  induction l with
  | nil => rfl
  | cons a l ih =>
    cases hp : p a with
    | true => simpa [List.dropWhile_cons, hp] using ih
    | false => simp [List.dropWhile_cons, hp]

/-- The right trim is empty iff every character is whitespace. -/
theorem rtrimWS_eq_nil_iff (m : List Char) : rtrimWS m = [] ↔ ∀ c ∈ m, isWS c := by
  unfold rtrimWS
  rw [List.reverse_eq_nil_iff, List.dropWhile_eq_nil_iff]
  constructor
  · intro h c hc
    exact h c (List.mem_reverse.mpr hc)
  · intro h c hc
    exact h c (List.mem_reverse.mp hc)

/-- Unfolding of the right trim on a cons cell. -/
theorem rtrimWS_cons (a : Char) (m : List Char) :
    rtrimWS (a :: m) =
      if rtrimWS m = [] then (if isWS a then [] else [a]) else a :: rtrimWS m := by
  unfold rtrimWS
  rw [List.reverse_cons, List.dropWhile_append]
  by_cases h : m.reverse.dropWhile isWS = []
  · simp only [h, List.isEmpty_nil, List.reverse_nil, if_true]
    cases ha : isWS a <;> simp [List.dropWhile_cons, ha]
  · have h' : (m.reverse.dropWhile isWS).isEmpty = false := by
      simpa [List.isEmpty_iff] using h
    have h'' : ¬((m.reverse.dropWhile isWS).reverse = []) := by
      simpa [List.reverse_eq_nil_iff] using h
    simp [h', h'']

/-- Left trim commutes with right trim. -/
theorem ltrimWS_rtrimWS (m : List Char) : ltrimWS (rtrimWS m) = rtrimWS (ltrimWS m) := by
  induction m with
  | nil => rfl
  | cons a m ih =>
    cases ha : isWS a with
    | false =>
      have hlt : ltrimWS (a :: m) = a :: m := by
        simp [ltrimWS, List.dropWhile_cons, ha]
      rw [hlt, rtrimWS_cons]
      by_cases hm : rtrimWS m = []
      · simp [hm, ha, ltrimWS, List.dropWhile_cons]
      · simp [hm, ha, ltrimWS, List.dropWhile_cons]
    | true =>
      have hlt : ltrimWS (a :: m) = ltrimWS m := by
        simp [ltrimWS, List.dropWhile_cons, ha]
      rw [hlt, rtrimWS_cons, ← ih]
      by_cases hm : rtrimWS m = []
      · simp [hm, ha, ltrimWS]
      · simp [hm, ha, ltrimWS, List.dropWhile_cons]

/-- The right trim is idempotent. -/
theorem rtrimWS_idem (m : List Char) : rtrimWS (rtrimWS m) = rtrimWS m := by
  unfold rtrimWS
  rw [List.reverse_reverse, dropWhile_self]

/-- The both-ends trim is idempotent. -/
theorem trimChars_idem (l : List Char) : trimChars (trimChars l) = trimChars l := by
  unfold trimChars
  rw [ltrimWS_rtrimWS]
  show rtrimWS (rtrimWS (ltrimWS (ltrimWS l))) = rtrimWS (ltrimWS l)
  rw [show ltrimWS (ltrimWS l) = ltrimWS l from dropWhile_self isWS l, rtrimWS_idem]

/-- `String.prototype.trim` is idempotent. -/
theorem jsTrim_idem (s : String) : jsTrim (jsTrim s) = jsTrim s := by
  unfold jsTrim
  exact congrArg String.mk (trimChars_idem s.data)

/-- A successful record emission from a section element determines its
shape: the section's `content` is a string with non-empty trim and the
record carries the inherited title/url and the trimmed content. -/
theorem extractSection_ok_some {t u : JField} {sv : SectionVal} {r : ContentRecord}
    (h : extractSection t u sv = .ok (some r)) :
    ∃ s c, sv = .obj s ∧ s.content = .str c ∧ jsTrim c ≠ "" ∧
      r = ⟨t, u, jsNullish s.heading, jsTrim c⟩ := by
  cases sv with
  | nullV => simp [extractSection] at h
  | obj s =>
    cases hc : s.content with
    | str c =>
      by_cases htr : jsTrim c = ""
      · simp [extractSection, hc, htr] at h
      · refine ⟨s, c, rfl, hc, htr, ?_⟩
        simp [extractSection, hc, htr] at h
        exact h.symm
    | absent => simp [extractSection, hc] at h
    | null => simp [extractSection, hc] at h
    | other => simp [extractSection, hc] at h

/-- Every record of a successful inner loop comes from some section. -/
theorem extractSections_mem {t u : JField} {svs : List SectionVal} {recs : List ContentRecord}
    (h : extractSections t u svs = .ok recs) {r : ContentRecord} (hr : r ∈ recs) :
    ∃ sv, sv ∈ svs ∧ extractSection t u sv = .ok (some r) := by
  induction svs generalizing recs with
  | nil =>
    simp only [extractSections, Except.ok.injEq] at h
    subst h
    simp at hr
  | cons sv svs ih =>
    cases hsv : extractSection t u sv with
    | error e => simp [extractSections, hsv] at h
    | ok r? =>
      cases hrest : extractSections t u svs with
      | error e => simp [extractSections, hsv, hrest] at h
      | ok rest =>
        cases r? with
        | some r' =>
          simp only [extractSections, hsv, hrest, Except.ok.injEq] at h
          subst h
          rcases List.mem_cons.mp hr with h' | h'
          · exact ⟨sv, List.mem_cons_self sv svs, h' ▸ hsv⟩
          · obtain ⟨sv', hm, he⟩ := ih hrest h'
            exact ⟨sv', List.mem_cons_of_mem sv hm, he⟩
        | none =>
          simp only [extractSections, hsv, hrest, Except.ok.injEq] at h
          subst h
          obtain ⟨sv', hm, he⟩ := ih hrest hr
          exact ⟨sv', List.mem_cons_of_mem sv hm, he⟩

/-- Every record of a successful page extraction inherits the coalesced
title/url and carries a non-empty, trimmed content. -/
theorem extractPage_mem {pv : PageVal} {recs : List ContentRecord}
    (h : extractPage pv = .ok recs) {r : ContentRecord} (hr : r ∈ recs) :
    ∃ p, pv = .obj p ∧ r.title = jsNullish p.title ∧ r.url = jsNullish p.url ∧
      r.content ≠ "" ∧ jsTrim r.content = r.content := by
  cases pv with
  | nullV => simp [extractPage] at h
  | obj p =>
    refine ⟨p, rfl, ?_⟩
    cases hsec : p.sections with
    | arr ss =>
      simp only [extractPage, hsec] at h
      obtain ⟨sv, _, he⟩ := extractSections_mem h hr
      obtain ⟨s, c, _, _, htr, hrec⟩ := extractSection_ok_some he
      subst hrec
      refine ⟨rfl, rfl, ?_, jsTrim_idem c⟩
      simpa using htr
    | nonArray =>
      cases hc : p.content with
      | str c =>
        by_cases htr : jsTrim c = ""
        · simp only [extractPage, hsec, hc, htr, if_true, Except.ok.injEq] at h
          subst h
          simp at hr
        · simp only [extractPage, hsec, hc, htr, if_false, Except.ok.injEq] at h
          subst h
          rcases List.mem_singleton.mp hr with h'
          subst h'
          exact ⟨rfl, rfl, htr, jsTrim_idem c⟩
      | absent =>
        simp only [extractPage, hsec, hc, Except.ok.injEq] at h
        subst h
        simp at hr
      | null =>
        simp only [extractPage, hsec, hc, Except.ok.injEq] at h
        subst h
        simp at hr
      | other =>
        simp only [extractPage, hsec, hc, Except.ok.injEq] at h
        subst h
        simp at hr

/-- Every record of a successful outer loop comes from some page. -/
theorem extractPages_mem {pvs : List PageVal} {recs : List ContentRecord}
    (h : extractPages pvs = .ok recs) {r : ContentRecord} (hr : r ∈ recs) :
    ∃ pv, pv ∈ pvs ∧ ∃ rs, extractPage pv = .ok rs ∧ r ∈ rs := by
  induction pvs generalizing recs with
  | nil =>
    simp only [extractPages, Except.ok.injEq] at h
    subst h
    simp at hr
  | cons pv pvs ih =>
    cases hpv : extractPage pv with
    | error e => simp [extractPages, hpv] at h
    | ok rs =>
      cases hrest : extractPages pvs with
      | error e => simp [extractPages, hpv, hrest] at h
      | ok rest =>
        simp only [extractPages, hpv, hrest, Except.ok.injEq] at h
        subst h
        rcases List.mem_append.mp hr with h' | h'
        · exact ⟨pv, List.mem_cons_self pv pvs, rs, hpv, h'⟩
        · obtain ⟨pv', hm, hex⟩ := ih hrest h'
          exact ⟨pv', List.mem_cons_of_mem pv hm, hex⟩

/-- C1: for every Raw Page collection given to the Indexer, every
Content Record in the output of `extractContentRecords` has a content
field that is a non-empty string equal to its own whitespace-trim
(sources with missing, non-string, null, or trim-empty content never
emit a record), and the title, url and heading fields are the empty
string when the corresponding source field is absent. -/
theorem claim_C1_record_invariants :
    (∀ input recs, extractContentRecords input = .ok recs →
      ∀ r ∈ recs, r.content ≠ "" ∧ jsTrim r.content = r.content) ∧
    (∀ p recs, extractPage (.obj p) = .ok recs → ∀ r ∈ recs,
      (p.title = .absent → r.title = .str "") ∧ (p.url = .absent → r.url = .str "")) ∧
    (∀ t u s r, extractSection t u (.obj s) = .ok (some r) →
      s.heading = .absent → r.heading = .str "") ∧
    (∀ t u s, badContent s.content = true → extractSection t u (.obj s) = .ok none) ∧
    (∀ p, p.sections = .nonArray → badContent p.content = true →
      extractPage (.obj p) = .ok []) := by
  refine ⟨?_, ?_, ?_, ?_, ?_⟩
  · intro input recs h r hr
    cases input with
    | nonIterable => simp [extractContentRecords] at h
    | arr ps =>
      obtain ⟨pv, _, rs, hpv, hrs⟩ := extractPages_mem h hr
      obtain ⟨p, _, _, _, hne, htrim⟩ := extractPage_mem hpv hrs
      exact ⟨hne, htrim⟩
  · intro p recs h r hr
    obtain ⟨p', hp, ht, hu, _, _⟩ := extractPage_mem h hr
    injection hp with hp
    subst hp
    constructor
    · intro ha
      rw [ht, ha]
      rfl
    · intro ha
      rw [hu, ha]
      rfl
  · intro t u s r h ha
    obtain ⟨s', c, hs, _, _, hrec⟩ := extractSection_ok_some h
    injection hs with hs
    subst hs
    subst hrec
    show jsNullish s.heading = .str ""
    rw [ha]
    rfl
  · intro t u s hbad
    cases hc : s.content with
    | str c =>
      rw [hc] at hbad
      have : jsTrim c = "" := by simpa [badContent] using hbad
      simp [extractSection, hc, this]
    | absent => simp [extractSection, hc]
    | null => simp [extractSection, hc]
    | other => simp [extractSection, hc]
  · intro p hsec hbad
    cases hc : p.content with
    | str c =>
      rw [hc] at hbad
      have : jsTrim c = "" := by simpa [badContent] using hbad
      simp [extractPage, hsec, hc, this]
    | absent => simp [extractPage, hsec, hc]
    | null => simp [extractPage, hsec, hc]
    | other => simp [extractPage, hsec, hc]

/-- Witness for C1 at concrete inputs: a sectioned page with an absent
title/url/heading and a padded content, and a trim-empty section. -/
theorem claim_C1_record_invariants_witness :
    (("hi" : String) ≠ "" ∧ jsTrim "hi" = "hi") ∧
    ((JField.str "" = JField.str "") ∧ (JField.str "" = JField.str "")) ∧
    (JField.str "" = JField.str "") ∧
    (extractSection (.str "") (.str "") (.obj ⟨.absent, .str "  "⟩) = .ok none) ∧
    (extractPage (.obj ⟨.absent, .absent, .null, .nonArray⟩) = .ok []) := by
  refine ⟨?_, ?_, ?_, ?_, ?_⟩
  · exact claim_C1_record_invariants.1
      (.arr [.obj ⟨.absent, .absent, .str " hi ", .nonArray⟩])
      [⟨.str "", .str "", .str "", "hi"⟩] (by decide)
      ⟨.str "", .str "", .str "", "hi"⟩ (by decide)
  · exact claim_C1_record_invariants.2.1
      ⟨.absent, .absent, .str " hi ", .nonArray⟩
      [⟨.str "", .str "", .str "", "hi"⟩] (by decide)
      ⟨.str "", .str "", .str "", "hi"⟩ (by decide) |>.imp (fun h => h rfl) (fun h => h rfl)
  · exact claim_C1_record_invariants.2.2.1 (.str "") (.str "") ⟨.absent, .str " hi "⟩
      ⟨.str "", .str "", .str "", "hi"⟩ (by decide) rfl
  · exact claim_C1_record_invariants.2.2.2.1 (.str "") (.str "") ⟨.absent, .str "  "⟩ (by decide)
  · exact claim_C1_record_invariants.2.2.2.2 ⟨.absent, .absent, .null, .nonArray⟩ rfl (by decide)

/-- Reflexivity of the field-wise record comparison. -/
theorem recordEqb_refl (r : ContentRecord) : recordEqb r r = true := by
  simp [recordEqb]

/-- Reflexivity of the order-and-value sequence comparison. -/
theorem recordsEqb_refl (l : List ContentRecord) : recordsEqb l l = true := by
  induction l with
  | nil => rfl
  | cons r l ih => simp [recordsEqb, recordEqb_refl, ih]

/-- C8: the Indexer is deterministic — two runs of
`extractContentRecords` on the same Raw Page input that produce record
sequences produce structurally equal sequences, identical in order and
in every field value. -/
theorem claim_C8_idempotent_extraction :
    ∀ input r₁ r₂, extractContentRecords input = .ok r₁ →
      extractContentRecords input = .ok r₂ → recordsEqb r₁ r₂ = true := by
  intro input r₁ r₂ h₁ h₂
  rw [h₁] at h₂
  injection h₂ with h
  subst h
  exact recordsEqb_refl r₁

/-- Witness for C8 at a concrete sectioned input. -/
theorem claim_C8_idempotent_extraction_witness :
    recordsEqb [⟨.str "A", .str "", .str "H1", "hello world"⟩]
      [⟨.str "A", .str "", .str "H1", "hello world"⟩] = true :=
  claim_C8_idempotent_extraction
    (.arr [.obj ⟨.str "A", .absent, .absent, .arr [.obj ⟨.str "H1", .str "hello world"⟩]⟩])
    [⟨.str "A", .str "", .str "H1", "hello world"⟩]
    [⟨.str "A", .str "", .str "H1", "hello world"⟩] (by decide) (by decide)

/-- A section object never throws: extraction yields some `ok`. -/
theorem extractSection_obj_ok (t u : JField) (s : Sectn) :
    ∃ r?, extractSection t u (.obj s) = .ok r? := by
  cases hc : s.content with
  | str c =>
    by_cases htr : jsTrim c = ""
    · exact ⟨none, by simp [extractSection, hc, htr]⟩
    · exact ⟨some ⟨t, u, jsNullish s.heading, jsTrim c⟩, by simp [extractSection, hc, htr]⟩
  | absent => exact ⟨none, by simp [extractSection, hc]⟩
  | null => exact ⟨none, by simp [extractSection, hc]⟩
  | other => exact ⟨none, by simp [extractSection, hc]⟩

/-- The inner loop succeeds exactly on section lists with no null
elements. -/
theorem extractSections_ok_iff (t u : JField) (ss : List SectionVal) :
    exceptOk (extractSections t u ss) = ss.all SectionVal.good := by
  induction ss with
  | nil => rfl
  | cons sv svs ih =>
    cases sv with
    | nullV => simp [extractSections, extractSection, exceptOk, SectionVal.good]
    | obj s =>
      obtain ⟨r?, hr⟩ := extractSection_obj_ok t u s
      cases hrest : extractSections t u svs with
      | error e =>
        rw [hrest] at ih
        cases r? with
        | some r => simp [extractSections, hr, hrest, exceptOk, SectionVal.good, ← ih]
        | none => simp [extractSections, hr, hrest, exceptOk, SectionVal.good, ← ih]
      | ok rest =>
        rw [hrest] at ih
        cases r? with
        | some r => simp [extractSections, hr, hrest, exceptOk, SectionVal.good, ← ih]
        | none => simp [extractSections, hr, hrest, exceptOk, SectionVal.good, ← ih]

/-- A single page's extraction succeeds exactly when the page element
is good (non-null, with no null section elements). -/
theorem extractPage_ok_iff (pv : PageVal) :
    exceptOk (extractPage pv) = pv.good := by
  cases pv with
  | nullV => rfl
  | obj p =>
    cases hsec : p.sections with
    | arr ss =>
      simp only [extractPage, hsec, PageVal.good]
      exact extractSections_ok_iff (jsNullish p.title) (jsNullish p.url) ss
    | nonArray =>
      cases hc : p.content with
      | str c =>
        by_cases htr : jsTrim c = ""
        · simp [extractPage, hsec, hc, htr, exceptOk, PageVal.good]
        · simp [extractPage, hsec, hc, htr, exceptOk, PageVal.good]
      | absent => simp [extractPage, hsec, hc, exceptOk, PageVal.good]
      | null => simp [extractPage, hsec, hc, exceptOk, PageVal.good]
      | other => simp [extractPage, hsec, hc, exceptOk, PageVal.good]

/-- C5 (amended): the embedded `extractContentRecords` is a pure
function, and it completes without throwing exactly when its input is
an iterable collection whose traversed elements (pages, and sections of
array-valued `sections` fields) are all non-null; a null element makes
it throw even though the input is iterable, contrary to the claim's
"fails only on non-iterable input". -/
theorem claim_C5_amended :
    ∀ input, exceptOk (extractContentRecords input) = goodInput input := by
  intro input
  cases input with
  | nonIterable => rfl
  | arr ps =>
    show exceptOk (extractPages ps) = ps.all PageVal.good
    induction ps with
    | nil => rfl
    | cons pv pvs ih =>
      have hpv := extractPage_ok_iff pv
      cases hp : extractPage pv with
      | error e =>
        rw [hp] at hpv
        simp [extractPages, hp, exceptOk, ← hpv]
      | ok rs =>
        rw [hp] at hpv
        cases hrest : extractPages pvs with
        | error e =>
          rw [hrest] at ih
          simp [extractPages, hp, hrest, exceptOk, ← hpv, ← ih]
        | ok rest =>
          rw [hrest] at ih
          simp [extractPages, hp, hrest, exceptOk, ← hpv, ← ih]

/-- Counterexample to C5 as stated: the singleton collection holding a
null page is iterable, yet extraction throws a `TypeError` instead of
returning a record sequence. -/
theorem claim_C5_counterexample :
    exceptOk (extractContentRecords (.arr [.nullV])) = false ∧
      JsInput.arr [.nullV] ≠ JsInput.nonIterable := by
  constructor
  · rfl
  · intro h
    cases h

/-- A bad section content (missing, null, non-string, trim-empty)
emits nothing. -/
theorem extractSection_none_of_bad (t u : JField) (s : Sectn)
    (hbad : badContent s.content = true) : extractSection t u (.obj s) = .ok none := by
  cases hc : s.content with
  | str c =>
    rw [hc] at hbad
    have : jsTrim c = "" := by simpa [badContent] using hbad
    simp [extractSection, hc, this]
  | absent => simp [extractSection, hc]
  | null => simp [extractSection, hc]
  | other => simp [extractSection, hc]

/-- A string section content with non-empty trim emits one record. -/
theorem extractSection_some_of_good (t u : JField) (s : Sectn) (c : String)
    (hc : s.content = .str c) (htr : jsTrim c ≠ "") :
    extractSection t u (.obj s) = .ok (some ⟨t, u, jsNullish s.heading, jsTrim c⟩) := by
  simp [extractSection, hc, htr]

/-- On a section list with no null elements the inner loop succeeds and
emits exactly one record per qualifying section. -/
theorem extractSections_count (t u : JField) (ss : List SectionVal)
    (h : ss.all SectionVal.good = true) :
    ∃ recs, extractSections t u ss = .ok recs ∧ recs.length = ss.countP sectionEmits := by
  induction ss with
  | nil => exact ⟨[], rfl, rfl⟩
  | cons sv svs ih =>
    rw [List.all_cons, Bool.and_eq_true] at h
    obtain ⟨hg, hall⟩ := h
    obtain ⟨recs, hrecs, hlen⟩ := ih hall
    cases sv with
    | nullV => simp [SectionVal.good] at hg
    | obj s =>
      by_cases hbad : badContent s.content = true
      · refine ⟨recs, ?_, ?_⟩
        · simp [extractSections, extractSection_none_of_bad t u s hbad, hrecs]
        · rw [hlen, List.countP_cons]
          simp [sectionEmits, hbad]
      · have hbad' : badContent s.content = false := by simpa using hbad
        obtain ⟨c, hc, htr⟩ : ∃ c, s.content = .str c ∧ jsTrim c ≠ "" := by
          cases hsc : s.content with
          | str c =>
            refine ⟨c, rfl, ?_⟩
            rw [hsc] at hbad'
            simpa [badContent] using hbad'
          | absent => rw [hsc] at hbad'; simp [badContent] at hbad'
          | null => rw [hsc] at hbad'; simp [badContent] at hbad'
          | other => rw [hsc] at hbad'; simp [badContent] at hbad'
        refine ⟨⟨t, u, jsNullish s.heading, jsTrim c⟩ :: recs, ?_, ?_⟩
        · simp [extractSections, extractSection_some_of_good t u s c hc htr, hrecs]
        · simp [List.countP_cons, sectionEmits, hbad', hlen]

/-- C3 (amended): the Indexer dispatches on the `sections` field being
an *array*, not on it being non-empty — for an array-valued `sections`
(even the empty array) it emits exactly one record per section whose
content is a string with non-whitespace characters and the page's own
content is ignored; only when `sections` is not an array does a
non-empty trimmed page content yield exactly one heading-less record,
and a bad page content yields nothing. -/
theorem claim_C3_amended :
    (∀ p, p.sections = .arr [] → extractPage (.obj p) = .ok []) ∧
    (∀ p ss, p.sections = .arr ss →
      extractPage (.obj p) = extractSections (jsNullish p.title) (jsNullish p.url) ss) ∧
    (∀ t u ss, ss.all SectionVal.good = true →
      ∃ recs, extractSections t u ss = .ok recs ∧ recs.length = ss.countP sectionEmits) ∧
    (∀ p c, p.sections = .nonArray → p.content = .str c → jsTrim c ≠ "" →
      extractPage (.obj p) = .ok [⟨jsNullish p.title, jsNullish p.url, .str "", jsTrim c⟩]) ∧
    (∀ p, p.sections = .nonArray → badContent p.content = true →
      extractPage (.obj p) = .ok []) := by
  refine ⟨?_, ?_, extractSections_count, ?_, ?_⟩
  · intro p hsec
    simp [extractPage, hsec, extractSections]
  · intro p ss hsec
    simp [extractPage, hsec]
  · intro p c hsec hc htr
    simp [extractPage, hsec, hc, htr]
  · intro p hsec hbad
    cases hc : p.content with
    | str c =>
      rw [hc] at hbad
      have : jsTrim c = "" := by simpa [badContent] using hbad
      simp [extractPage, hsec, hc, this]
    | absent => simp [extractPage, hsec, hc]
    | null => simp [extractPage, hsec, hc]
    | other => simp [extractPage, hsec, hc]

/-- Counterexample to C3 as stated: a page whose `sections` field is
the empty array and whose own content is the non-empty trimmed string
"hello" yields zero records, not the one record the claim requires. -/
theorem claim_C3_counterexample :
    extractPage (.obj ⟨.absent, .absent, .str "hello", .arr []⟩) = .ok [] ∧
      jsTrim "hello" = "hello" ∧ ("hello" : String) ≠ "" := by
  refine ⟨rfl, by decide, by decide⟩

/-- Witness for C3 at concrete pages: an empty-array sectioned page, a
one-section page, and a flat page. -/
theorem claim_C3_amended_witness :
    (extractPage (.obj ⟨.str "T", .absent, .str "body", .arr []⟩) = .ok []) ∧
    (∃ recs, extractSections (.str "T") (.str "")
        [.obj ⟨.str "H1", .str "hello world"⟩, .obj ⟨.absent, .str "  "⟩] = .ok recs ∧
      recs.length =
        ([.obj ⟨.str "H1", .str "hello world"⟩, .obj ⟨.absent, .str "  "⟩] :
          List SectionVal).countP sectionEmits) ∧
    (extractPage (.obj ⟨.absent, .absent, .str " hi ", .nonArray⟩) =
      .ok [⟨jsNullish .absent, jsNullish .absent, .str "", jsTrim " hi "⟩]) := by
  refine ⟨?_, ?_, ?_⟩
  · exact claim_C3_amended.1 ⟨.str "T", .absent, .str "body", .arr []⟩ rfl
  · exact claim_C3_amended.2.2.1 (.str "T") (.str "")
      [.obj ⟨.str "H1", .str "hello world"⟩, .obj ⟨.absent, .str "  "⟩] (by decide)
  · exact claim_C3_amended.2.2.2.1 ⟨.absent, .absent, .str " hi ", .nonArray⟩ " hi " rfl rfl
      (by decide)

/-- Lower-casing one character always yields at least one character. -/
theorem lowerCharL_ne_nil (c : Char) : lowerCharL c ≠ [] := by
  unfold lowerCharL
  split
  · simp
  · split
    · simp
    · split
      · simp
      · simp

/-- Lower-casing a non-empty string yields a non-empty string. -/
theorem jsToLower_data_ne_nil (q : String) (hq : q ≠ "") : (jsToLower q).data ≠ [] := by
  intro h
  cases hd : q.data with
  | nil => exact hq (String.ext hd)
  | cons a l =>
    have h' : (a :: l).flatMap lowerCharL = [] := by
      rw [← hd]
      exact h
    rw [List.flatMap_cons] at h'
    exact lowerCharL_ne_nil a (List.append_eq_nil.mp h').1

/-- For a non-empty needle, the JavaScript truthiness guard in front of
an `includes` clause is redundant: the empty string contains no
non-empty needle anyway. -/
theorem clause_eq (q s : String) (hq : q.data ≠ []) :
    (!(s == "") && strIncludes (jsToLower s) q) = strIncludes (jsToLower s) q := by
  by_cases hs : s = ""
  · subst hs
    have h2 : strIncludes (jsToLower "") q = false := by
      apply decide_eq_false
      intro hinf
      exact hq (List.infix_nil.mp hinf)
    rw [h2]
    simp
  · have h1 : (s == "") = false := beq_eq_false_iff_ne.mpr hs
    rw [h1]
    rfl

/-- `filter` with a callback that never throws and computes `f` is the
pure filter by `f`. -/
theorem filterOpt_eq_filter {α : Type} (p : α → Option Bool) (f : α → Bool) (l : List α)
    (h : ∀ a ∈ l, p a = some (f a)) : filterOpt p l = some (l.filter f) := by
  induction l with
  | nil => rfl
  | cons a l ih =>
    have ha := h a (List.mem_cons_self a l)
    have ih' := ih (fun b hb => h b (List.mem_cons_of_mem a hb))
    rw [List.filter_cons]
    simp only [filterOpt, ha, ih']

/-- On a string-fielded record and a non-empty question, the source's
short-circuiting filter predicate computes exactly the spec-side
three-way substring disjunction. -/
theorem recordMatch_eq_spec (question : String) (hq : question ≠ "") (r : ContentRecord)
    (hs : String) (hh : r.heading = JField.str hs)
    (ts : String) (ht : r.title = JField.str ts) :
    recordMatch (jsToLower question) r = some (specMatches question r) := by
  have hqd : (jsToLower question).data ≠ [] := jsToLower_data_ne_nil question hq
  have hc := clause_eq (jsToLower question) r.content hqd
  have hhd := clause_eq (jsToLower question) hs hqd
  have htd := clause_eq (jsToLower question) ts hqd
  unfold recordMatch specMatches
  rw [hh, ht, hc]
  simp only [fieldMatch, strOf]
  rw [hhd, htd]
  cases hA : strIncludes (jsToLower r.content) (jsToLower question) <;>
    cases hB : strIncludes (jsToLower hs) (jsToLower question) <;>
      cases hC : strIncludes (jsToLower ts) (jsToLower question) <;> simp

/-- C4 (amended): for every sequence of string-fielded Content Records
and every *non-empty* question, `searchRelevantChunks` returns exactly
the records whose lowercased content, heading or title contains the
lowercased question as a literal substring, as a sub-sequence of the
input in input order. (For the empty question the source returns `[]`
instead, falsifying the claim as stated — see the counterexample.) -/
theorem claim_C4_amended :
    ∀ (records : List ContentRecord) (question : String), question ≠ "" →
      (∀ r ∈ records, (∃ s, r.heading = JField.str s) ∧ (∃ s, r.title = JField.str s)) →
      searchRelevantChunks records question = some (records.filter (specMatches question)) ∧
      List.Sublist (records.filter (specMatches question)) records := by
  intro records question hq hr
  refine ⟨?_, List.filter_sublist records⟩
  unfold searchRelevantChunks
  rw [if_neg hq]
  apply filterOpt_eq_filter
  intro r hrm
  obtain ⟨⟨s1, h1⟩, ⟨s2, h2⟩⟩ := hr r hrm
  exact recordMatch_eq_spec question hq r s1 h1 s2 h2

/-- Counterexample to C4 as stated: on the empty question the source
returns `[]`, while the empty normalized question is a substring of
every normalized field, so the claim demands the whole input back. -/
theorem claim_C4_counterexample :
    searchRelevantChunks [⟨.str "", .str "", .str "", "x"⟩] "" = some [] ∧
      ([⟨.str "", .str "", .str "", "x"⟩] : List ContentRecord).filter (specMatches "") =
        [⟨.str "", .str "", .str "", "x"⟩] := by
  constructor
  · decide
  · decide

/-- Witness for C4 on a concrete record list and question. -/
theorem claim_C4_amended_witness :
    searchRelevantChunks [⟨.str "A", .str "", .str "H1", "hello world"⟩] "HELLO" =
      some (([⟨.str "A", .str "", .str "H1", "hello world"⟩] : List ContentRecord).filter
        (specMatches "HELLO")) ∧
      List.Sublist
        (([⟨.str "A", .str "", .str "H1", "hello world"⟩] : List ContentRecord).filter
          (specMatches "HELLO"))
        [⟨.str "A", .str "", .str "H1", "hello world"⟩] :=
  claim_C4_amended [⟨.str "A", .str "", .str "H1", "hello world"⟩] "HELLO" (by decide)
    (by
      intro r hr
      rw [List.mem_singleton] at hr
      subst hr
      exact ⟨⟨"H1", rfl⟩, ⟨"A", rfl⟩⟩)

/-- A character that is no ASCII letter or digit is turned into a space
by the strip step of the hardened normalization. -/
theorem normChar_of_not_alnum (c : Char) (h : isAsciiAlnum c = false) :
    normChar c = ' ' := by
  unfold isAsciiAlnum at h
  rw [Bool.or_eq_false_iff, Bool.or_eq_false_iff] at h
  obtain ⟨⟨haz, hAZ⟩, h09⟩ := h
  unfold normChar isKeep
  rw [haz, h09]
  by_cases hsp : c = ' '
  · subst hsp
    simp
  · have hb : (c == ' ') = false := beq_eq_false_iff_ne.mpr hsp
    simp [hb]

/-- Collapsing whitespace runs of an all-space list yields only spaces. -/
theorem collapseAux_all_space (l : List Char) (hl : ∀ c ∈ l, c = ' ') :
    ∀ b, ∀ c ∈ collapseAux l b, c = ' ' := by
  induction l with
  | nil =>
    intro b c hc
    simp [collapseAux] at hc
  | cons a l ih =>
    intro b c hc
    have ha : a = ' ' := hl a (List.mem_cons_self a l)
    have hl' : ∀ c ∈ l, c = ' ' := fun c hc => hl c (List.mem_cons_of_mem a hc)
    subst ha
    simp only [collapseAux, beq_self_eq_true, if_true] at hc
    cases b with
    | true => exact ih hl' true c hc
    | false =>
      rcases List.mem_cons.mp hc with h | h
      · exact h
      · exact ih hl' true c h

/-- Trimming an all-space list leaves nothing. -/
theorem trimChars_all_space (l : List Char) (hl : ∀ c ∈ l, c = ' ') :
    trimChars l = [] := by
  have h1 : ltrimWS l = [] := by
    rw [ltrimWS, List.dropWhile_eq_nil_iff]
    intro c hc
    rw [hl c hc]
    rfl
  rw [trimChars, h1]
  rfl

/-- The hardened normalization of a question whose lowercased form has
no ASCII letters or digits is the empty string. -/
theorem prepareStr_no_alnum (q : String)
    (h : (jsToLower q).data.all (fun c => !isAsciiAlnum c) = true) :
    prepareStr q = "" := by
  unfold prepareStr
  have hmap : ∀ c ∈ (jsToLower q).data.map normChar, c = ' ' := by
    intro c hc
    obtain ⟨c₀, hc₀, rfl⟩ := List.mem_map.mp hc
    have h₀ : isAsciiAlnum c₀ = false := by
      simpa using List.all_eq_true.mp h c₀ hc₀
    exact normChar_of_not_alnum c₀ h₀
  rw [trimChars_all_space _ (collapseAux_all_space _ hmap false)]

/-- With the empty normalized question every record matches the
hardened predicate already on its content clause. -/
theorem recordMatchH_empty (r : ContentRecord) : recordMatchH "" r = some true := by
  unfold recordMatchH
  have h : strIncludes (prepareStr r.content) "" = true :=
    decide_eq_true List.nil_infix
  rw [h]
  rfl

/-- C10 (amended): in the hardened matcher variant, for every sequence
of Content Records and every non-empty question whose *lowercased*
form contains no ASCII letters or digits, the normalization of the
question is the empty string, the empty string is a substring of every
normalized field, and `searchRelevantChunks` returns the entire input
record sequence. (The restriction to the lowercased form is forced:
`toLowerCase` maps KELVIN SIGN U+212A — itself no ASCII letter or
digit — to `k`, making such a question normalize to `"k"`, on which
the matcher filters; see the counterexample.) -/
theorem claim_C10_amended :
    ∀ (records : List ContentRecord) (question : String), question ≠ "" →
      (jsToLower question).data.all (fun c => !isAsciiAlnum c) = true →
      prepareStr question = "" ∧ searchRelevantChunksH records question = some records := by
  intro records question hq hall
  have hprep := prepareStr_no_alnum question hall
  refine ⟨hprep, ?_⟩
  unfold searchRelevantChunksH
  rw [if_neg hq, hprep]
  rw [filterOpt_eq_filter (recordMatchH "") (fun _ => true) records
    (fun r _ => recordMatchH_empty r)]
  simp

/-- Counterexample to C10 as stated: the question holding the single
character KELVIN SIGN U+212A contains no ASCII letters or digits, yet
under `toLowerCase` it becomes `k`, so it normalizes to `"k"` rather
than the empty string, and the hardened matcher filters the input
(here down to `[]`) instead of returning the entire record sequence. -/
theorem claim_C10_counterexample :
    ("K" : String) ≠ "" ∧
    ("K" : String).data.all (fun c => !isAsciiAlnum c) = true ∧
    prepareStr "K" = "k" ∧
    searchRelevantChunksH [⟨.str "", .str "", .str "", "xyz"⟩] "K" = some [] := by
  refine ⟨by decide, by decide, by decide, by decide⟩

/-- Witness for C10 on a concrete record list and an all-punctuation
question. -/
theorem claim_C10_amended_witness :
    prepareStr "?!?" = "" ∧
      searchRelevantChunksH [⟨.str "T", .str "", .str "H", "college info"⟩] "?!?" =
        some [⟨.str "T", .str "", .str "H", "college info"⟩] :=
  claim_C10_amended [⟨.str "T", .str "", .str "H", "college info"⟩] "?!?"
    (by decide) (by decide)

/-- A string with a non-empty prefix glued in front is non-empty. -/
theorem append_left_ne_empty (pre t : String) (h : pre.data ≠ []) : pre ++ t ≠ "" := by
  intro he
  apply h
  have hd : (pre ++ t).data = [] := by
    rw [he]
  rw [String.data_append] at hd
  exact (List.append_eq_nil.mp hd).1

/-- The source's per-record block (truthiness-guarded parts filtered by
`Boolean` and newline-joined) renders exactly the spec's block: a
`Title:` line if the title is non-empty, a `Heading:` line if the
heading is non-empty, then the content, empty parts omitted. -/
theorem composeBlock_eq_specBlock (t u h ct : String) :
    composeBlock ⟨.str t, .str u, .str h, ct⟩ = specBlock t h ct := by
  have hTitle : (("Title: " ++ t) == "") = false :=
    beq_eq_false_iff_ne.mpr (append_left_ne_empty "Title: " t (by decide))
  have hHead : (("Heading: " ++ h) == "") = false :=
    beq_eq_false_iff_ne.mpr (append_left_ne_empty "Heading: " h (by decide))
  have e1 : ∀ x : String, x ≠ "" → (!(x == "")) = true := by
    intro x hx
    rw [beq_eq_false_iff_ne.mpr hx]
    rfl
  have e2 : (!(("" : String) == "")) = false := by decide
  unfold composeBlock specBlock
  by_cases hT : t = "" <;> by_cases hH : h = "" <;> by_cases hC : ct = "" <;>
    simp [JField.truthy, fieldStr, List.filter, hT, hH, hC, hTitle, hHead, e1, e2]

/-- C6: the Context Composer uses exactly the first `limit` (default 8)
matches in matcher order; each selected record renders as a block of a
`Title:` line when the title is non-empty, a `Heading:` line when the
heading is non-empty, then the content, present parts newline-joined
with empty parts omitted; and on twenty matching records with limit 8
exactly the contents of the first eight appear in the composed context
while none of records 9-20 occur as substrings of it. -/
theorem claim_C6_truncation_and_rendering :
    (∀ (chunks : List ContentRecord) (limit : Nat),
      composeContext chunks limit = composeContext (chunks.take limit) limit) ∧
    (∀ t u h ct, composeBlock ⟨.str t, .str u, .str h, ct⟩ = specBlock t h ct) ∧
    composeContext recs20 8 = "c1x\n\nc2x\n\nc3x\n\nc4x\n\nc5x\n\nc6x\n\nc7x\n\nc8x" ∧
    (List.range 8).all (fun i => strIncludes (composeContext recs20 8) (recContent i)) = true ∧
    (List.range 12).all
      (fun j => !(strIncludes (composeContext recs20 8) (recContent (8 + j)))) = true := by
  refine ⟨?_, composeBlock_eq_specBlock, ?_, ?_, ?_⟩
  · intro chunks limit
    unfold composeContext joinedContext
    rw [List.take_take, min_self]
  · decide
  · decide
  · decide

/-- C7: with an empty selected set the composer returns exactly the
sentinel string and never the empty string. -/
theorem claim_C7_sentinel_on_empty :
    ∀ (chunks : List ContentRecord) (limit : Nat), chunks.take limit = [] →
      composeContext chunks limit = "No relevant info found." ∧
      composeContext chunks limit ≠ "" := by
  intro chunks limit h
  have hj : joinedContext chunks limit = "" := by
    unfold joinedContext
    rw [h]
    rfl
  unfold composeContext
  rw [if_pos hj]
  exact ⟨rfl, by decide⟩

/-- Witness for C7 at the empty match list. -/
theorem claim_C7_sentinel_on_empty_witness :
    composeContext [] 8 = "No relevant info found." ∧ composeContext [] 8 ≠ "" :=
  claim_C7_sentinel_on_empty [] 8 rfl

/-- C9: the composed context is always non-empty — the sentinel is
substituted exactly when the joined rendering is the empty string,
which can happen even for a non-empty match list (a single record whose
title, heading and content are all empty renders to nothing and yields
the sentinel). -/
theorem claim_C9_context_never_empty :
    (∀ (chunks : List ContentRecord) (limit : Nat), composeContext chunks limit ≠ "") ∧
    (∀ (chunks : List ContentRecord) (limit : Nat),
      composeContext chunks limit =
        if joinedContext chunks limit = "" then "No relevant info found."
        else joinedContext chunks limit) ∧
    composeContext [⟨.str "", .str "", .str "", ""⟩] 8 = "No relevant info found." ∧
    ([⟨.str "", .str "", .str "", ""⟩] : List ContentRecord) ≠ [] := by
  refine ⟨?_, fun chunks limit => rfl, by decide, by decide⟩
  intro chunks limit
  unfold composeContext
  by_cases h : joinedContext chunks limit = ""
  · rw [if_pos h]
    decide
  · rw [if_neg h]
    exact h

/-- C2 (amended): the main handler (`api/chat.js`) returns 405 with an
error payload on any non-POST method and 400 with an error payload —
returning before the external completion API is reached — when the
body's `question` is missing, null, non-string, empty, or whitespace-
only; the `part_000` variant returns 405 on non-POST methods but
rejects with 400 only *falsy* questions (missing, null, or the empty
string): a whitespace-only question passes its validation (see the
counterexample). -/
theorem claim_C2_amended :
    (∀ data req, req.method ≠ "POST" → handler data req = .response 405 true) ∧
    (∀ data req, req.method = "POST" → questionBad (reqQuestion req) = true →
      handler data req = .response 400 true) ∧
    (∀ docs req, req.method ≠ "POST" → handlerV0 docs req = .response 405 true) ∧
    (∀ docs req b, req.method = "POST" → req.body = some b → b.question.truthy = false →
      handlerV0 docs req = .response 400 true) := by
  refine ⟨?_, ?_, ?_, ?_⟩
  · intro data req h
    unfold handler
    rw [if_pos h]
  · intro data req hm hq
    unfold handler
    rw [if_neg (fun hne => hne hm)]
    cases hf : reqQuestion req with
    | str s =>
      rw [hf] at hq
      have hts : jsTrim s = "" := by simpa [questionBad] using hq
      simp [hts]
    | absent => rfl
    | null => rfl
    | other => rfl
  · intro docs req h
    unfold handlerV0
    rw [if_pos h]
  · intro docs req b hm hb hq
    unfold handlerV0
    rw [if_neg (fun hne => hne hm), hb]
    show (if b.question.truthy = false then HOutcome.response 400 true else _) = _
    rw [if_pos hq]

/-- Counterexample to C2 as stated: on the `part_000` handler a POST
request whose `question` is the whitespace-only string `"   "` — which
the claim requires to be rejected with 400 without reaching the
external API — passes validation and invokes the external completion
API. -/
theorem claim_C2_counterexample :
    handlerV0 [] ⟨"POST", some ⟨.str "   "⟩⟩ =
      .apiCall "No relevant info found." (.str "   ") ∧
    questionBad (.str "   ") = true := by
  constructor
  · decide
  · decide

/-- Witness for C2 at concrete requests against both handlers. -/
theorem claim_C2_amended_witness :
    handler (.arr []) ⟨"GET", none⟩ = .response 405 true ∧
    handler (.arr []) ⟨"POST", some ⟨.str " "⟩⟩ = .response 400 true ∧
    handlerV0 [] ⟨"DELETE", none⟩ = .response 405 true ∧
    handlerV0 [] ⟨"POST", some ⟨.str ""⟩⟩ = .response 400 true := by
  refine ⟨?_, ?_, ?_, ?_⟩
  · exact claim_C2_amended.1 (.arr []) ⟨"GET", none⟩ (by decide)
  · exact claim_C2_amended.2.1 (.arr []) ⟨"POST", some ⟨.str " "⟩⟩ rfl (by decide)
  · exact claim_C2_amended.2.2.1 [] ⟨"DELETE", none⟩ (by decide)
  · exact claim_C2_amended.2.2.2 [] ⟨"POST", some ⟨.str ""⟩⟩ ⟨.str ""⟩ rfl rfl (by decide)
